import Mathlib

set_option maxHeartbeats 1000000

/-!
Shallow embedding of the seccomp filter DB (src/db.c together with src/db.h).

The C data structure is a per-syscall decision tree whose nodes carry four
owning pointers (`lvl_prv`, `lvl_nxt`, `nxt_t`, `nxt_f`).  Every link the code
ever creates points from an older node to a freshly allocated one (the splice
code sets exactly one direction of a level link), so every reachable state is
a finite tree; we embed it as an inductive type whose four children mirror the
four pointers.  Pointer identity, which `_db_arg_chain_tree_remove` relies on,
is embedded as an `id` field handed out by a counter that the caller threads
through `db_add_syscall`.  Loops whose termination is not structurally obvious
(`do/while` merge walk, the remove helper) take an explicit fuel counting loop
iterations; exhausting fuel yields `none`.  `none` is also used for executions
in which the C code dereferences or leaves behind a pointer that the tree
model cannot represent (out-of-bounds array write, dangling level link).
-/

/-- SCMP_ARG_MAX from the external seccomp.h header (6 on the platform of
origin, per the spec). -/
def SCMP_ARG_MAX : Nat := 6

/-- Modelled from the spec: the scmp_compare constants are defined in the
external seccomp.h header; the numeric values follow that header. -/
def SCMP_CMP_NE : Nat := 1

/-- Modelled from the spec: seccomp.h comparison constant. -/
def SCMP_CMP_LT : Nat := 2

/-- Modelled from the spec: seccomp.h comparison constant. -/
def SCMP_CMP_LE : Nat := 3

/-- Modelled from the spec: seccomp.h comparison constant. -/
def SCMP_CMP_EQ : Nat := 4

/-- Modelled from the spec: seccomp.h comparison constant. -/
def SCMP_CMP_GE : Nat := 5

/-- Modelled from the spec: seccomp.h comparison constant. -/
def SCMP_CMP_GT : Nat := 6

/-- Modelled from the spec: actions are a closed enumeration from seccomp.h;
the value 0 is the out-of-band "no action" sentinel (`db_chain_leaf` tests
`action != 0`), so the two actions the scenarios use are nonzero constants. -/
def SCMP_ACT_ALLOW : Nat := 1

/-- Modelled from the spec: seccomp.h action constant, nonzero. -/
def SCMP_ACT_DENY : Nat := 2

def EINVAL : Int := 22

def EFAULT : Int := 14

/-- Payload of `struct db_arg_chain_tree` (db.h lines 31-56); the four links
are the children of the `ChainTree` inductive below.  `id` stands for the
node's address and exists only to give the model pointer identity. -/
structure ChainData where
  id : Nat
  arg : Nat
  op : Nat
  datum : Nat
  action : Nat
  action_flag : Bool
  refcnt : Nat
deriving DecidableEq, Repr

/-- `struct db_arg_chain_tree`: data plus the owned `lvl_prv`, `lvl_nxt`,
`nxt_t`, `nxt_f` links (in that order); `null` is the NULL pointer. -/
inductive ChainTree where
  | null : ChainTree
  | node (data : ChainData) (lvl_prv lvl_nxt nxt_t nxt_f : ChainTree) : ChainTree
deriving DecidableEq, Repr

/-- db.h macro `db_chain_lt`. -/
def db_chain_lt (x y : ChainData) : Bool :=
  x.arg < y.arg || (x.arg == y.arg && x.op < y.op)

/-- db.h macro `db_chain_eq`. -/
def db_chain_eq (x y : ChainData) : Bool :=
  x.arg == y.arg && x.op == y.op && x.datum == y.datum

/-- db.h macro `db_chain_leaf`. -/
def db_chain_leaf (x : ChainData) : Bool :=
  x.action != 0

/-- `struct db_sys_list` (db.h lines 66-73); the `next` pointer is the list
structure itself. -/
structure DbSysList where
  num : Nat
  chains : ChainTree
deriving DecidableEq, Repr

/-- `struct db_filter` (db.h lines 75-81). -/
structure DbFilter where
  def_action : Nat
  syscalls : List DbSysList
deriving DecidableEq, Repr

/-- `db_new` (db.c lines 149-160): allocation never fails in the model. -/
def db_new (def_action : Nat) : DbFilter :=
  { def_action := def_action, syscalls := [] }

/-- `struct db_arg_filter` (db.c lines 32-38); the `valid` flag is the
`Option` wrapping in `Slots`. -/
structure DbArgFilter where
  arg : Nat
  op : Nat
  datum : Nat
deriving DecidableEq, Repr

/-- The `chain[SCMP_ARG_MAX]` array of `db_add_syscall`, memset to zero. -/
abbrev Slots := Nat → Option DbArgFilter

def emptySlots : Slots := fun _ => none

def slotPut (s : Slots) (a : Nat) (v : DbArgFilter) : Slots :=
  fun j => if j = a then some v else s j

/-- Result of the argument-sorting loop: `ub` marks the out-of-bounds array
access the C code performs when an arg-index is at least SCMP_ARG_MAX. -/
inductive BuildRes where
  | ub : BuildRes
  | inval : BuildRes
  | ok (s : Slots) : BuildRes

/-- The chain-sorting loop of `db_add_syscall` (db.c lines 216-225): each
triple is (arg number, op, datum) as read off the va_list; a duplicate
arg-index returns -EINVAL, an arg-index at or above SCMP_ARG_MAX indexes the
`chain` array out of bounds (`ub`). -/
def buildSlots : List (Nat × Nat × Nat) → Slots → BuildRes
  | [], s => .ok s
  | (a, o, d) :: rest, s =>
    if a < SCMP_ARG_MAX then
      if (s a).isSome then .inval
      else buildSlots rest (slotPut s a ⟨a, o, d⟩)
    else .ub

/-- The `for (iter = 0; iter < SCMP_ARG_MAX; iter++)` traversal order of the
`chain` array, skipping invalid entries (db.c lines 236-238). -/
def slotsList (s : Slots) : List DbArgFilter :=
  (List.range SCMP_ARG_MAX).filterMap s

/-- The op rewrite of db.c lines 261-277: returns the stored op together with
the `tf_flag` computed by the switch (default branch leaves the op unchanged
and sets the flag). -/
def rewriteOp (op : Nat) : Nat × Bool :=
  if op = SCMP_CMP_NE then (SCMP_CMP_EQ, false)
  else if op = SCMP_CMP_LT then (SCMP_CMP_GE, false)
  else if op = SCMP_CMP_LE then (SCMP_CMP_GT, false)
  else (op, true)

/-- The chain-building loop of `db_add_syscall` (db.c lines 236-285): nodes
are allocated in arg order with `refcnt = 1`; each node is linked onto the
previous node's `tf_flag` side; the last node receives the action and its
`tf_flag` as `action_flag` (interior nodes keep the memset zero there).
Returns the chain root (`s_new->chains`) and the next free id. -/
def chainOf : List DbArgFilter → Nat → Nat → ChainTree × Nat
  | [], _, nid => (.null, nid)
  | f :: rest, action, nid =>
    let r := rewriteOp f.op
    match rest with
    | [] =>
      (.node ⟨nid, f.arg, r.1, f.datum, action, r.2, 1⟩ .null .null .null .null,
        nid + 1)
    | g :: gs =>
      let c := chainOf (g :: gs) action (nid + 1)
      if r.2 then
        (.node ⟨nid, f.arg, r.1, f.datum, 0, false, 1⟩ .null .null c.1 .null, c.2)
      else
        (.node ⟨nid, f.arg, r.1, f.datum, 0, false, 1⟩ .null .null .null c.1, c.2)

/-- Outcome of the lockstep merge walk, db.c lines 323-416.  The carried tree
is what `s_iter->chains` has become (refcount increments applied in place):
`matched` covers every path that exits with success and no pending removal,
`removed` records that `_db_arg_chain_tree_remove` is to be run on the root
for the node with the given id, `fault` is the `rc = -EFAULT` exit. -/
inductive WalkRes where
  | matched (t : ChainTree) : WalkRes
  | removed (t : ChainTree) (nid : Nat) : WalkRes
  | fault (t : ChainTree) : WalkRes
deriving DecidableEq, Repr

/-- Rebuild the carried tree of a walk outcome around the cursor. -/
def WalkRes.mapT (g : ChainTree → ChainTree) : WalkRes → WalkRes
  | .matched t => .matched (g t)
  | .removed t i => .removed (g t) i
  | .fault t => .fault (g t)

/-- `ec_iter->refcnt++` (db.c line 326). -/
def bump (d : ChainData) : ChainData :=
  { d with refcnt := d.refcnt + 1 }

/-- Number of nodes of a chain tree. -/
def ctSize : ChainTree → Nat
  | .null => 0
  | .node _ p n t f => 1 + ctSize p + ctSize n + ctSize t + ctSize f

/-- The lockstep merge walk of `db_add_syscall` (db.c lines 320-416),
transcribed branch for branch; `a` is the `action` argument, the cursors are
`c_iter` (new chain) and `ec_iter` (existing chain).  Fuel counts do/while
iterations; `none` means the loop ran out of fuel or dereferenced NULL. -/
def walkF (a : Nat) : Nat → ChainTree → ChainTree → Option WalkRes
  | 0, _, _ => none
  | _ + 1, .null, _ => none
  | _ + 1, .node _ _ _ _ _, .null => none
  | fuel + 1, .node cd cp cn ct cf, .node ed0 ep en et ef =>
    if db_chain_eq cd ed0 then
      let ed := bump ed0
      if db_chain_leaf ed && db_chain_leaf cd then
        if ed.action_flag != cd.action_flag then
          some (.removed (.node ed ep en et ef) ed.id)
        else
          some (.matched (.node ed ep en et ef))
      else if db_chain_leaf ed then
        if ed.action_flag then
          if ct != .null then some (.matched (.node ed ep en et ef))
          else some (.matched (.node ed ep en et cf))
        else
          if cf != .null then some (.matched (.node ed ep en et ef))
          else some (.matched (.node ed ep en ct ef))
      else if db_chain_leaf cd then
        some (.matched (.node { ed with action := a, action_flag := cd.action_flag }
          ep en (if cd.action_flag then .null else et)
          (if cd.action_flag then ef else .null)))
      else if ct != .null then
        if et = .null then some (.matched (.node ed ep en ct ef))
        else (walkF a fuel ct et).map (WalkRes.mapT fun t1 => .node ed ep en t1 ef)
      else if cf != .null then
        if ef = .null then some (.matched (.node ed ep en et cf))
        else (walkF a fuel cf ef).map (WalkRes.mapT fun f1 => .node ed ep en et f1)
      else
        some (.fault (.node ed ep en et ef))
    else
      if db_chain_lt cd ed0 then
        if ep = .null then
          some (.matched (.node ed0 (.node cd cp cn ct cf) en et ef))
        else
          (walkF a fuel (.node cd cp cn ct cf) ep).map
            (WalkRes.mapT fun p1 => .node ed0 p1 en et ef)
      else
        if en = .null then
          some (.matched (.node ed0 ep (.node cd cp cn ct cf) et ef))
        else
          (walkF a fuel (.node cd cp cn ct cf) en).map
            (WalkRes.mapT fun n1 => .node ed0 ep n1 et ef)

/-- Address (id) of a node behind a possibly NULL pointer. -/
def chainId : ChainTree → Option Nat
  | .null => none
  | .node d _ _ _ _ => some d.id

mutual

/-- `_db_arg_chain_tree_remove` (db.c lines 85-139) on the slot `*tree`,
searching for the node with id `nid`.  The C walks to the head of the first
level through `lvl_prv`, then iterates the do/while along `lvl_nxt`.  `none`
records either exhausted fuel or an execution in which the C code would free
a node while another node still holds a pointer to it (possible because the
unlink at lines 101-110 consults only the node's own level links), leaving a
dangling pointer the tree model cannot represent. -/
def chainTreeRemove : Nat → ChainTree → Nat → Option ChainTree
  | 0, _, _ => none
  | _ + 1, .null, _ => some .null
  | fuel + 1, .node d p n t f, nid =>
    match p with
    | .null => remSpine fuel (.node d .null n t f) nid true
    | .node pd pp pn pt pf =>
      (remDescend fuel (.node pd pp pn pt pf) nid).map fun p1 => .node d p1 n t f

/-- The `while (c_iter->lvl_prv != NULL)` descent (db.c lines 94-95): keep
walking into `lvl_prv` and start the do/while at the level head reached. -/
def remDescend : Nat → ChainTree → Nat → Option ChainTree
  | 0, _, _ => none
  | _ + 1, .null, _ => some .null
  | fuel + 1, .node d p n t f, nid =>
    match p with
    | .null => remSpine fuel (.node d .null n t f) nid false
    | .node pd pp pn pt pf =>
      (remDescend fuel (.node pd pp pn pt pf) nid).map fun p1 => .node d p1 n t f

/-- The do/while body of `_db_arg_chain_tree_remove` (db.c lines 97-138) from
the current `c_iter` onward; `isHead` records whether `c_iter == *tree`.  On a
direct hit the node (and, per line 122 and 131, its whole subtree) is freed and
the function returns; otherwise the true subtree is searched recursively, the
false subtree only checked directly — its `else` branch at line 135 recurses
into `nxt_t` again (a transcription of the source, not a slip of the model). -/
def remSpine : Nat → ChainTree → Nat → Bool → Option ChainTree
  | 0, _, _, _ => none
  | _ + 1, .null, _, _ => some .null
  | fuel + 1, .node d p n t f, nid, isHead =>
    if d.id = nid then
      if isHead then
        match n with
        | .null => some .null
        | .node nd _ nn nt nf => some (.node nd .null nn nt nf)
      else none
    else
      if chainId t = some nid then some (.node d p n .null f)
      else
        match chainTreeRemove fuel t nid with
        | none => none
        | some t1 =>
          if chainId f = some nid then some (.node d p n t1 .null)
          else
            match chainTreeRemove fuel t1 nid with
            | none => none
            | some t2 =>
              match n with
              | .null => some (.node d p .null t2 f)
              | .node nd np nn nt nf =>
                (remSpine fuel (.node nd np nn nt nf) nid false).map
                  fun n1 => .node d p n1 t2 f

end

/-- The syscall-list scan of db.c lines 291-295 (also db.c lines 454-456):
splits the sorted list into the entries with `num < syscall` (walked over,
`s_prev` ends on the last of them) and the remainder (`s_iter`). -/
def scanSyscalls : List DbSysList → Nat → List DbSysList × List DbSysList
  | [], _ => ([], [])
  | e :: rest, syscall =>
    if e.num < syscall then
      let pr := scanSyscalls rest syscall
      (e :: pr.1, pr.2)
    else
      ([], e :: rest)

/-- `db_find_syscall` (db.c lines 447-461). -/
def db_find_syscall (db : DbFilter) (syscall : Nat) : Option DbSysList :=
  match (scanSyscalls db.syscalls syscall).2 with
  | [] => none
  | e :: _ => if e.num = syscall then some e else none

/-- `db_add_syscall` (db.c lines 196-435).  `nid` is the allocation counter
for node ids (the model's stand-in for addresses); the result is
`(return code, new database, new counter)`, or `none` when the C execution is
outside the model (out-of-bounds `chain` write, an exit that leaves a dangling
pointer, or fuel exhaustion — the latter is refuted below).

Transcription notes, faithful to the source:
* the new-syscall insertion (db.c lines 296-302) sets `s_prev->next = s_new`
  (or the list head) but never sets `s_new->next`, which is NULL from the
  memset; the entries from `s_iter` on are therefore dropped from the list,
  hence the `pr.1 ++ [⟨syscall, s_new⟩]` with `pr.2` discarded;
* memory that is freed or leaked is simply absent from the result. -/
def db_add_syscall (db : DbFilter) (action syscall : Nat)
    (chain_list : List (Nat × Nat × Nat)) (nid : Nat) :
    Option (Int × DbFilter × Nat) :=
  if chain_list.length > SCMP_ARG_MAX then some (-EINVAL, db, nid)
  else
    match buildSlots chain_list emptySlots with
    | .ub => none
    | .inval => some (-EINVAL, db, nid)
    | .ok slots =>
      let sc := chainOf (slotsList slots) action nid
      let s_new := sc.1
      let nid1 := sc.2
      let pr := scanSyscalls db.syscalls syscall
      match pr.2 with
      | [] =>
        some (0, { db with syscalls := pr.1 ++ [⟨syscall, s_new⟩] }, nid1)
      | e :: tail =>
        if e.num ≠ syscall then
          some (0, { db with syscalls := pr.1 ++ [⟨syscall, s_new⟩] }, nid1)
        else
          match e.chains, s_new with
          | .null, _ => some (0, db, nid1)
          | .node _ _ _ _ _, .null =>
            some (0, { db with syscalls := pr.1 ++ ⟨syscall, .null⟩ :: tail },
              nid1)
          | .node ed ep en et ef, .node cd cp cn ct cf =>
            match walkF action (ctSize (.node ed ep en et ef) + 1)
                (.node cd cp cn ct cf) (.node ed ep en et ef) with
            | none => none
            | some (.matched t) =>
              some (0, { db with syscalls := pr.1 ++ ⟨syscall, t⟩ :: tail }, nid1)
            | some (.removed t i) =>
              match chainTreeRemove (ctSize t + 1) t i with
              | none => none
              | some t1 =>
                some (0, { db with syscalls := pr.1 ++ ⟨syscall, t1⟩ :: tail },
                  nid1)
            | some (.fault t) =>
              some (-EFAULT, { db with syscalls := pr.1 ++ ⟨syscall, t⟩ :: tail },
                nid1)

/-! ## Observation functions for stating the claims -/

/-- Chain one more `db_add_syscall` call onto a previous result, threading the
database and the id counter (a caller-side test harness, not source code). -/
def addChain (st : Option (Int × DbFilter × Nat)) (action syscall : Nat)
    (l : List (Nat × Nat × Nat)) : Option (Int × DbFilter × Nat) :=
  match st with
  | none => none
  | some (_, db, n) => db_add_syscall db action syscall l n

/-- A fresh database with default action DENY, as all spec scenarios start. -/
def dbStart : Option (Int × DbFilter × Nat) :=
  some (0, db_new SCMP_ACT_DENY, 0)

/-- Erase the refcount bookkeeping of every node (for comparing databases up
to refcounts). -/
def eraseRef : ChainTree → ChainTree
  | .null => .null
  | .node d p n t f =>
    .node { d with refcnt := 0 } (eraseRef p) (eraseRef n) (eraseRef t) (eraseRef f)

/-- Erase refcounts across a whole database. -/
def eraseRefDb (db : DbFilter) : DbFilter :=
  { db with syscalls := db.syscalls.map fun e => ⟨e.num, eraseRef e.chains⟩ }

/-- Increment the refcount of every node on the spine of a rule chain (the
path the lockstep walk takes through a freshly built chain). -/
def bumpSpine : ChainTree → ChainTree
  | .null => .null
  | .node d p n t f =>
    match t with
    | .node td tp tn tt tf =>
      .node (bump d) p n (bumpSpine (.node td tp tn tt tf)) f
    | .null =>
      match f with
      | .node fd fp fn ft ff =>
        .node (bump d) p n t (bumpSpine (.node fd fp fn ft ff))
      | .null => .node (bump d) p n t f

/-- Read a rule chain back off as a list of (arg, stored op, datum,
action-branch bit); an interior node's bit is the side its child hangs on, a
leaf's bit is its `action_flag`. -/
def spineView : ChainTree → List (Nat × Nat × Nat × Bool)
  | .null => []
  | .node d _ _ t f =>
    match t with
    | .node td tp tn tt tf =>
      (d.arg, d.op, d.datum, true) :: spineView (.node td tp tn tt tf)
    | .null =>
      match f with
      | .node fd fp fn ft ff =>
        (d.arg, d.op, d.datum, false) :: spineView (.node fd fp fn ft ff)
      | .null => [(d.arg, d.op, d.datum, d.action_flag)]

/-- The normalised chain `db_add_syscall` builds for a raw predicate list
(the composition of its sorting loop and chain-building loop); `none` when
the sorting loop errors out or goes out of bounds. -/
def normChain (l : List (Nat × Nat × Nat)) (action nid : Nat) : Option ChainTree :=
  match buildSlots l emptySlots with
  | .ok s => some (chainOf (slotsList s) action nid).1
  | _ => none

/-- Property P5 / invariant I4 of the spec: a node carrying an action has no
child on its action-branch side (checked recursively on every node). -/
def p5 : ChainTree → Bool
  | .null => true
  | .node d p n t f =>
    (!(db_chain_leaf d) || (if d.action_flag then t == ChainTree.null
      else f == ChainTree.null))
      && p5 p && p5 n && p5 t && p5 f

/-- P5 across a whole database. -/
def dbP5 (db : DbFilter) : Prop :=
  ∀ e ∈ db.syscalls, p5 e.chains = true

/-- The tree carried by a walk outcome. -/
def WalkRes.tree : WalkRes → ChainTree
  | .matched t => t
  | .removed t _ => t
  | .fault t => t

/-! ## Claim C1: commutativity of rules on different syscall numbers -/

/-- C1 (code_bug evidence): two empty-chain rules on the different syscall
numbers 20 and 10, merged into the same fresh database in the two orders, do
not yield identical databases.  Adding 20 first and then 10 leaves only the
entry for 10 — the new-syscall insertion at db.c lines 296-302 never sets
`s_new->next`, so inserting before an existing entry drops that entry and
everything after it — while the other order keeps both entries. -/
theorem add_two_syscalls_order_dependent :
    addChain (addChain dbStart SCMP_ACT_ALLOW 20 []) SCMP_ACT_ALLOW 10 [] =
      some (0, ⟨SCMP_ACT_DENY, [⟨10, .null⟩]⟩, 0) ∧
    addChain (addChain dbStart SCMP_ACT_ALLOW 10 []) SCMP_ACT_ALLOW 20 [] =
      some (0, ⟨SCMP_ACT_DENY, [⟨10, .null⟩, ⟨20, .null⟩]⟩, 0) ∧
    addChain (addChain dbStart SCMP_ACT_ALLOW 20 []) SCMP_ACT_ALLOW 10 [] ≠
      addChain (addChain dbStart SCMP_ACT_ALLOW 10 []) SCMP_ACT_ALLOW 20 [] := by
  decide

/-! ## Claim C3: idempotence of merging the same rule twice -/

/-- C3 counterexample: adding `ALLOW 10 [(0, EQ, 3)]` once stores a leaf with
`refcnt = 1`; adding the identical rule again succeeds but increments that
node's refcount to 2 (db.c line 326), so the database after the second call is
not bit-identical to the database after the first. -/
theorem add_twice_changes_refcnt :
    addChain dbStart SCMP_ACT_ALLOW 10 [(0, SCMP_CMP_EQ, 3)] =
      some (0, ⟨SCMP_ACT_DENY,
        [⟨10, .node ⟨0, 0, SCMP_CMP_EQ, 3, SCMP_ACT_ALLOW, true, 1⟩
          .null .null .null .null⟩]⟩, 1) ∧
    addChain (addChain dbStart SCMP_ACT_ALLOW 10 [(0, SCMP_CMP_EQ, 3)])
        SCMP_ACT_ALLOW 10 [(0, SCMP_CMP_EQ, 3)] =
      some (0, ⟨SCMP_ACT_DENY,
        [⟨10, .node ⟨0, 0, SCMP_CMP_EQ, 3, SCMP_ACT_ALLOW, true, 2⟩
          .null .null .null .null⟩]⟩, 2) ∧
    ¬ (⟨SCMP_ACT_DENY, [⟨10, .node ⟨0, 0, SCMP_CMP_EQ, 3, SCMP_ACT_ALLOW, true, 2⟩
          .null .null .null .null⟩]⟩ : DbFilter) =
      ⟨SCMP_ACT_DENY, [⟨10, .node ⟨0, 0, SCMP_CMP_EQ, 3, SCMP_ACT_ALLOW, true, 1⟩
          .null .null .null .null⟩]⟩ := by
  decide

/-! ## Claim C4: removal on equal keys with disagreeing action-branch bits -/

/-- C4 counterexample (the claim's scenario-5 citation): after
`add(ALLOW, 10, [(0, EQ, 3)])` and `add(DENY, 10, [(0, EQ, 3)])` the entry for
syscall 10 still has a tree root.  Both rules normalise `EQ` with action-branch
bit true, so the two leaves *agree* on the bit, the both-leaves branch at db.c
lines 327-336 merely bumps the refcount and discards the new chain, and the
stored leaf (still carrying ALLOW) survives — the claim's assertion that the
entry is left with no tree root is false on these inputs. -/
theorem same_predicate_opposite_actions_keeps_leaf :
    addChain (addChain dbStart SCMP_ACT_ALLOW 10 [(0, SCMP_CMP_EQ, 3)])
        SCMP_ACT_DENY 10 [(0, SCMP_CMP_EQ, 3)] =
      some (0, ⟨SCMP_ACT_DENY,
        [⟨10, .node ⟨0, 0, SCMP_CMP_EQ, 3, SCMP_ACT_ALLOW, true, 2⟩
          .null .null .null .null⟩]⟩, 2) ∧
    (ChainTree.node ⟨0, 0, SCMP_CMP_EQ, 3, SCMP_ACT_ALLOW, true, 2⟩
      .null .null .null .null) ≠ .null := by
  decide

/-! ## Claim C10: no range check on arg indices -/

/-- The sorting loop never goes out of bounds when every arg-index is below
SCMP_ARG_MAX. -/
theorem buildSlots_ne_ub (l : List (Nat × Nat × Nat))
    (h : ∀ x ∈ l, x.1 < SCMP_ARG_MAX) : ∀ s : Slots, buildSlots l s ≠ .ub := by
  induction l with
  | nil => intro s hc; simp [buildSlots] at hc
  | cons x rest ih =>
    intro s
    obtain ⟨a, o, d⟩ := x
    have ha : a < SCMP_ARG_MAX := h _ (List.mem_cons_self _ _)
    simp only [buildSlots, if_pos ha]
    split
    · intro hc; cases hc
    · exact ih (fun y hy => h y (List.mem_cons_of_mem _ hy)) _

/-- C10: `db_add_syscall` checks the number of predicates against SCMP_ARG_MAX
but performs no range check on the individual arg-indices: a single predicate
with arg-index SCMP_ARG_MAX passes the length check yet drives the
`chain[arg_num]` access out of bounds (the model's `ub`, surfacing as `none`
from `db_add_syscall`); under the precondition that every supplied arg-index
is strictly below SCMP_ARG_MAX, the sorting loop stays in bounds. -/
theorem add_arg_bounds_unchecked :
    (∀ (l : List (Nat × Nat × Nat)), (∀ x ∈ l, x.1 < SCMP_ARG_MAX) →
      ∀ s : Slots, buildSlots l s ≠ .ub) ∧
    ¬ ([((SCMP_ARG_MAX : Nat), SCMP_CMP_EQ, (0 : Nat))].length > SCMP_ARG_MAX) ∧
    buildSlots [(SCMP_ARG_MAX, SCMP_CMP_EQ, 0)] emptySlots = .ub ∧
    db_add_syscall (db_new SCMP_ACT_DENY) SCMP_ACT_ALLOW 10
      [(SCMP_ARG_MAX, SCMP_CMP_EQ, 0)] 0 = none :=
  ⟨buildSlots_ne_ub, by decide, rfl, rfl⟩

/-- C10 witness: the in-bounds half applied at a concrete list. -/
theorem add_arg_bounds_unchecked_witness :
    (∀ x ∈ [((0 : Nat), SCMP_CMP_EQ, (3 : Nat))], x.1 < SCMP_ARG_MAX) ∧
    buildSlots [(0, SCMP_CMP_EQ, 3)] emptySlots ≠ .ub :=
  ⟨by decide, add_arg_bounds_unchecked.1 [(0, SCMP_CMP_EQ, 3)] (by decide) emptySlots⟩

/-! ## Claim C2: termination of the lockstep merge walk -/

/-- C2: the do/while merge walk returns within `ctSize ec` iterations for
every pair of non-NULL cursors — each iteration either descends both cursors
or moves the existing-tree cursor to one of its level links, all of which are
owned subtrees in every state this code can construct (the splice code writes
exactly one direction of each level link, from an older node to a brand-new
one), so the sibling-splice search always reaches an insertion point. -/
theorem walkF_isSome (a : Nat) :
    ∀ fuel (c ec : ChainTree), c ≠ .null → ec ≠ .null → ctSize ec < fuel →
      (walkF a fuel c ec).isSome = true := by
  intro fuel
  induction fuel with
  | zero => intro c ec _ _ h; omega
  | succ fuel ih =>
    intro c ec hc hec hsz
    match c, ec with
    | .null, _ => exact absurd rfl hc
    | .node cd cp cn ct cf, .null => exact absurd rfl hec
    | .node cd cp cn ct cf, .node ed0 ep en et ef =>
      have hp : ctSize ep < fuel := by simp [ctSize] at hsz ⊢; omega
      have hn : ctSize en < fuel := by simp [ctSize] at hsz ⊢; omega
      have ht : ctSize et < fuel := by simp [ctSize] at hsz ⊢; omega
      have hf : ctSize ef < fuel := by simp [ctSize] at hsz ⊢; omega
      simp only [walkF]
      repeat' split
      all_goals simp only [Option.isSome_map', Option.isSome_some]
      all_goals simp_all only [bne_iff_ne, ne_eq, not_false_eq_true,
        not_true_eq_false]

/-- C2 witness: the walk of a fresh `arg0 GE 5` leaf against a stored
`arg0 EQ 3` leaf returns within the size bound. -/
theorem walkF_isSome_witness :
    (ChainTree.node ⟨1, 0, SCMP_CMP_GE, 5, SCMP_ACT_ALLOW, false, 1⟩
        .null .null .null .null) ≠ .null ∧
    (ChainTree.node ⟨0, 0, SCMP_CMP_EQ, 3, SCMP_ACT_ALLOW, true, 1⟩
        .null .null .null .null) ≠ .null ∧
    ctSize (.node ⟨0, 0, SCMP_CMP_EQ, 3, SCMP_ACT_ALLOW, true, 1⟩
        .null .null .null .null) < 2 ∧
    (walkF SCMP_ACT_ALLOW 2
      (.node ⟨1, 0, SCMP_CMP_GE, 5, SCMP_ACT_ALLOW, false, 1⟩ .null .null .null .null)
      (.node ⟨0, 0, SCMP_CMP_EQ, 3, SCMP_ACT_ALLOW, true, 1⟩ .null .null .null .null)).isSome
      = true :=
  ⟨by decide, by decide, by decide,
    walkF_isSome SCMP_ACT_ALLOW 2 _ _ (by decide) (by decide) (by decide)⟩

/-! ## Claim C8: empty chain against an existing tree -/

/-- The syscall-list scan stops at the first entry whose number is not below
the target. -/
theorem scanSyscalls_split (A B : List DbSysList) (e : DbSysList) (sc : Nat)
    (hA : ∀ x ∈ A, x.num < sc) (he : ¬ e.num < sc) :
    scanSyscalls (A ++ e :: B) sc = (A, e :: B) := by
  induction A with
  | nil => simp [scanSyscalls, he]
  | cons a rest ih =>
    have h1 : a.num < sc := hA a (by simp)
    have h2 := ih (fun x hx => hA x (by simp [hx]))
    simp [scanSyscalls, h1, h2]

/-- C8: when the entry for the syscall exists and holds a tree, and a rule
with no predicates arrives, `db_add_syscall` frees the whole tree (db.c lines
310-317), leaves the entry in place with a NULL root, and returns 0.  The
entries before the target must have smaller numbers for the scan to find it,
which invariant I6 grants on every database this code builds. -/
theorem add_empty_chain_clears_tree (db : DbFilter) (action syscall nid : Nat)
    (A B : List DbSysList) (ed : ChainData) (ep en et ef : ChainTree)
    (hdb : db.syscalls = A ++ ⟨syscall, .node ed ep en et ef⟩ :: B)
    (hA : ∀ e ∈ A, e.num < syscall) :
    db_add_syscall db action syscall [] nid =
      some (0, { db with syscalls := A ++ ⟨syscall, .null⟩ :: B }, nid) := by
  have hscan : scanSyscalls db.syscalls syscall =
      (A, (⟨syscall, .node ed ep en et ef⟩ : DbSysList) :: B) := by
    rw [hdb]; exact scanSyscalls_split A B _ syscall hA (by simp)
  have hsl : slotsList emptySlots = [] := rfl
  simp only [db_add_syscall, List.length_nil, buildSlots, hsl, chainOf, hscan]
  norm_num [SCMP_ARG_MAX]

/-- C8 witness: scenario 2's second call, on the concrete database produced by
`add(ALLOW, 42, [(0, EQ, 7)])`. -/
theorem add_empty_chain_clears_tree_witness :
    (DbFilter.syscalls ⟨SCMP_ACT_DENY,
        [⟨42, .node ⟨0, 0, SCMP_CMP_EQ, 7, SCMP_ACT_ALLOW, true, 1⟩
          .null .null .null .null⟩]⟩ =
      [] ++ ⟨42, .node ⟨0, 0, SCMP_CMP_EQ, 7, SCMP_ACT_ALLOW, true, 1⟩
          .null .null .null .null⟩ :: []) ∧
    db_add_syscall ⟨SCMP_ACT_DENY,
        [⟨42, .node ⟨0, 0, SCMP_CMP_EQ, 7, SCMP_ACT_ALLOW, true, 1⟩
          .null .null .null .null⟩]⟩ SCMP_ACT_ALLOW 42 [] 1 =
      some (0, ⟨SCMP_ACT_DENY, [] ++ ⟨42, .null⟩ :: []⟩, 1) :=
  ⟨rfl, add_empty_chain_clears_tree _ SCMP_ACT_ALLOW 42 1 [] []
    ⟨0, 0, SCMP_CMP_EQ, 7, SCMP_ACT_ALLOW, true, 1⟩ .null .null .null .null
    rfl (by simp)⟩

/-! ## Claim C7: INVALID exactly on duplicate arg or over-long chain -/

/-- Updating one slot leaves a slot empty iff it is a different slot that was
already empty. -/
theorem slotPut_eq_none (s : Slots) (a : Nat) (v : DbArgFilter) (b : Nat) :
    slotPut s a v b = none ↔ (¬ b = a ∧ s b = none) := by
  unfold slotPut; split <;> simp_all

/-- The sorting loop reports -EINVAL exactly when the incoming args collide
with each other or with an already-filled slot. -/
theorem buildSlots_inval_iff :
    ∀ (l : List (Nat × Nat × Nat)) (s : Slots), (∀ x ∈ l, x.1 < SCMP_ARG_MAX) →
      (buildSlots l s = .inval ↔
        ¬ ((l.map fun x => x.1).Nodup ∧ ∀ a ∈ l.map fun x => x.1, s a = none)) := by
  intro l
  induction l with
  | nil => intro s _; simp [buildSlots]
  | cons x rest ih =>
    intro s h
    obtain ⟨a, o, d⟩ := x
    have ha : a < SCMP_ARG_MAX := h (a, o, d) (by simp)
    simp only [buildSlots, if_pos ha]
    by_cases hs : (s a).isSome = true
    · rw [if_pos hs]
      constructor
      · intro _ hc
        have := hc.2 a (by simp)
        rw [this] at hs; simp at hs
      · intro _; rfl
    · have hsa : s a = none := Option.not_isSome_iff_eq_none.mp hs
      rw [if_neg hs]
      rw [ih (slotPut s a ⟨a, o, d⟩) (fun y hy => h y (by simp [hy]))]
      apply not_congr
      simp only [List.map_cons, List.nodup_cons, List.mem_cons]
      constructor
      · intro ⟨hnd, hall⟩
        refine ⟨⟨?_, hnd⟩, ?_⟩
        · intro hmem
          exact ((slotPut_eq_none s a _ a).mp (hall a hmem)).1 rfl
        · intro b hb
          rcases hb with rfl | hb
          · exact hsa
          · exact ((slotPut_eq_none s a _ b).mp (hall b hb)).2
      · intro ⟨⟨hna, hnd⟩, hall⟩
        refine ⟨hnd, fun b hb => (slotPut_eq_none s a _ b).mpr
          ⟨fun hba => hna (hba ▸ hb), hall b (Or.inr hb)⟩⟩

/-- Once the sorting loop has succeeded, every exit of `db_add_syscall` that
returns at all returns 0 or -EFAULT, never -EINVAL. -/
theorem add_rc_of_ok (db : DbFilter) (a sc : Nat) (l : List (Nat × Nat × Nat))
    (nid : Nat) (s : Slots) (rc : Int) (d : DbFilter) (n : Nat)
    (hok : buildSlots l emptySlots = .ok s) (hlen : ¬ l.length > SCMP_ARG_MAX)
    (h : db_add_syscall db a sc l nid = some (rc, d, n)) :
    rc = 0 ∨ rc = -EFAULT := by
  simp only [db_add_syscall, if_neg hlen, hok] at h
  repeat' split at h
  all_goals simp_all

/-- C7: with every supplied arg-index below SCMP_ARG_MAX, `db_add_syscall`
returns -EINVAL exactly when the predicate list has a duplicate arg-index or
more than SCMP_ARG_MAX entries, and in either case it returns the database
unchanged (both checks precede any mutation, db.c lines 211-225). -/
theorem add_invalid_iff (db : DbFilter) (action syscall nid : Nat)
    (l : List (Nat × Nat × Nat)) (h : ∀ x ∈ l, x.1 < SCMP_ARG_MAX) :
    ((¬ (l.map fun x => x.1).Nodup ∨ l.length > SCMP_ARG_MAX) →
      db_add_syscall db action syscall l nid = some (-EINVAL, db, nid)) ∧
    (((l.map fun x => x.1).Nodup ∧ ¬ l.length > SCMP_ARG_MAX) →
      ∀ d n, db_add_syscall db action syscall l nid ≠ some (-EINVAL, d, n)) := by
  constructor
  · intro hbad
    by_cases hlen : l.length > SCMP_ARG_MAX
    · simp [db_add_syscall, if_pos hlen]
    · have hdup : ¬ (l.map fun x => x.1).Nodup := by tauto
      have hinv : buildSlots l emptySlots = .inval := by
        rw [buildSlots_inval_iff l emptySlots h]
        intro hc; exact hdup hc.1
      simp [db_add_syscall, if_neg hlen, hinv]
  · intro hg d n hc
    have hni : ¬ buildSlots l emptySlots = .inval := by
      rw [buildSlots_inval_iff l emptySlots h]
      intro hno
      exact hno ⟨hg.1, fun a _ => rfl⟩
    have hnu : buildSlots l emptySlots ≠ .ub := buildSlots_ne_ub l h emptySlots
    cases hbs : buildSlots l emptySlots with
    | ub => exact hnu hbs
    | inval => exact hni hbs
    | ok s =>
      rcases add_rc_of_ok db action syscall l nid s (-EINVAL) d n hbs hg.2 hc
        with h0 | h0 <;> simp [EINVAL, EFAULT] at h0

/-- C7 witness: a duplicated arg-index 0 is rejected with -EINVAL and the
database is handed back unchanged. -/
theorem add_invalid_iff_witness :
    (∀ x ∈ [((0 : Nat), SCMP_CMP_EQ, (3 : Nat)), (0, SCMP_CMP_EQ, 4)],
      x.1 < SCMP_ARG_MAX) ∧
    db_add_syscall (db_new SCMP_ACT_DENY) SCMP_ACT_ALLOW 10
      [(0, SCMP_CMP_EQ, 3), (0, SCMP_CMP_EQ, 4)] 0 =
      some (-EINVAL, db_new SCMP_ACT_DENY, 0) :=
  ⟨by decide, (add_invalid_iff (db_new SCMP_ACT_DENY) SCMP_ACT_ALLOW 10 0
    [(0, SCMP_CMP_EQ, 3), (0, SCMP_CMP_EQ, 4)] (by decide)).1 (Or.inl (by decide))⟩

/-! ## Claim C5: a new-rule leaf matching an existing internal node -/

/-- C5: whenever the lockstep walk pairs a new-rule leaf with an existing
internal node of equal key (db.c lines 355-370), the existing node is bumped
and promoted to a leaf carrying the walk's action and the new leaf's
action-branch bit, exactly the action-branch-side subtree is dropped while
the opposite side is kept, and the walk reports success; and concretely,
scenario 6 reduces the stored tree for syscall 10 to the single leaf
`arg0 EQ 3` with action-branch true and returns 0 on both calls. -/
theorem walk_promotes_shorter_rule :
    (∀ (a fuel : Nat) (cd ed : ChainData) (cp cn ct cf ep en et ef : ChainTree),
      db_chain_eq cd ed = true → db_chain_leaf cd = true → db_chain_leaf ed = false →
      walkF a (fuel + 1) (.node cd cp cn ct cf) (.node ed ep en et ef) =
        some (.matched (.node { bump ed with action := a, action_flag := cd.action_flag }
          ep en (if cd.action_flag then .null else et)
          (if cd.action_flag then ef else .null)))) ∧
    addChain (addChain dbStart SCMP_ACT_ALLOW 10
        [(0, SCMP_CMP_EQ, 3), (1, SCMP_CMP_EQ, 9)])
        SCMP_ACT_ALLOW 10 [(0, SCMP_CMP_EQ, 3)] =
      some (0, ⟨SCMP_ACT_DENY, [⟨10, .node ⟨0, 0, SCMP_CMP_EQ, 3, SCMP_ACT_ALLOW, true, 2⟩
        .null .null .null .null⟩]⟩, 3) := by
  constructor
  · intro a fuel cd ed cp cn ct cf ep en et ef heq hcleaf heleaf
    have h1 : db_chain_leaf (bump ed) = false := heleaf
    simp only [walkF]
    rw [if_pos heq]
    simp [h1, hcleaf]
  · decide

/-- C5 witness: the promote branch applied to a concrete leaf/internal pair
(the scenario-6 shapes). -/
theorem walk_promotes_shorter_rule_witness :
    db_chain_eq ⟨5, 0, SCMP_CMP_EQ, 3, SCMP_ACT_ALLOW, true, 1⟩
        ⟨0, 0, SCMP_CMP_EQ, 3, 0, false, 1⟩ = true ∧
    db_chain_leaf ⟨5, 0, SCMP_CMP_EQ, 3, SCMP_ACT_ALLOW, true, 1⟩ = true ∧
    db_chain_leaf ⟨0, 0, SCMP_CMP_EQ, 3, 0, false, 1⟩ = false ∧
    walkF SCMP_ACT_ALLOW 2
        (.node ⟨5, 0, SCMP_CMP_EQ, 3, SCMP_ACT_ALLOW, true, 1⟩ .null .null .null .null)
        (.node ⟨0, 0, SCMP_CMP_EQ, 3, 0, false, 1⟩ .null .null
          (.node ⟨1, 1, SCMP_CMP_EQ, 9, SCMP_ACT_ALLOW, true, 1⟩ .null .null .null .null)
          .null) =
      some (.matched (.node
        { bump ⟨0, 0, SCMP_CMP_EQ, 3, 0, false, 1⟩ with
            action := SCMP_ACT_ALLOW,
            action_flag := (⟨5, 0, SCMP_CMP_EQ, 3, SCMP_ACT_ALLOW, true, 1⟩ : ChainData).action_flag }
        .null .null
        (if (⟨5, 0, SCMP_CMP_EQ, 3, SCMP_ACT_ALLOW, true, 1⟩ : ChainData).action_flag
          then .null
          else .node ⟨1, 1, SCMP_CMP_EQ, 9, SCMP_ACT_ALLOW, true, 1⟩ .null .null .null .null)
        (if (⟨5, 0, SCMP_CMP_EQ, 3, SCMP_ACT_ALLOW, true, 1⟩ : ChainData).action_flag
          then .null else .null))) :=
  ⟨by decide, by decide, by decide,
    walk_promotes_shorter_rule.1 SCMP_ACT_ALLOW 1 _ _ _ _ _ _ _ _ _ _
      (by decide) (by decide) (by decide)⟩

/-! ## Claim C4 (amended): removal in the single-node case -/

/-- A single occupied slot reads back as a one-element list. -/
theorem slotsList_single (a : Nat) (v : DbArgFilter) (h : a < SCMP_ARG_MAX) :
    slotsList (slotPut emptySlots a v) = [v] := by
  have h6 : a < 6 := h
  interval_cases a <;> rfl

/-- C4 (amended): when the existing tree for the syscall is a single leaf and
the incoming single-predicate rule normalises to the same (arg, op, datum) key
with the *opposite* action-branch bit — which requires raw operators from
different rows of the rewrite table, e.g. `EQ` against `NE`, unlike scenario
5's two `EQ` rules whose bits agree — the walk bumps the leaf's refcount,
`_db_arg_chain_tree_remove` unlinks and frees it as the level head, the new
chain is discarded, `db_add_syscall` returns 0, and the entry is left with no
tree root. -/
theorem add_conflicting_leaf_clears_single_node (db : DbFilter)
    (action syscall nid rop : Nat) (b : Bool)
    (A B : List DbSysList) (L : ChainData)
    (hdb : db.syscalls = A ++ ⟨syscall, .node L .null .null .null .null⟩ :: B)
    (hA : ∀ e ∈ A, e.num < syscall)
    (harg : L.arg < SCMP_ARG_MAX)
    (hop : rewriteOp rop = (L.op, b))
    (hflag : b ≠ L.action_flag)
    (hLleaf : L.action ≠ 0) (hact : action ≠ 0) :
    db_add_syscall db action syscall [(L.arg, rop, L.datum)] nid =
      some (0, { db with syscalls := A ++ ⟨syscall, .null⟩ :: B }, nid + 1) := by
  have hbs : buildSlots [(L.arg, rop, L.datum)] emptySlots =
      .ok (slotPut emptySlots L.arg ⟨L.arg, rop, L.datum⟩) := by
    simp [buildSlots, harg, emptySlots]
  have hsl : slotsList (slotPut emptySlots L.arg ⟨L.arg, rop, L.datum⟩) =
      [⟨L.arg, rop, L.datum⟩] := slotsList_single _ _ harg
  have hco : chainOf [⟨L.arg, rop, L.datum⟩] action nid =
      (.node ⟨nid, L.arg, L.op, L.datum, action, b, 1⟩ .null .null .null .null,
        nid + 1) := by
    simp [chainOf, hop]
  have hscan : scanSyscalls db.syscalls syscall =
      (A, (⟨syscall, .node L .null .null .null .null⟩ : DbSysList) :: B) := by
    rw [hdb]; exact scanSyscalls_split A B _ syscall hA (by simp)
  have heq : db_chain_eq ⟨nid, L.arg, L.op, L.datum, action, b, 1⟩ L = true := by
    simp [db_chain_eq]
  have hwalk : walkF action (ctSize (.node L .null .null .null .null) + 1)
      (.node ⟨nid, L.arg, L.op, L.datum, action, b, 1⟩ .null .null .null .null)
      (.node L .null .null .null .null) =
      some (.removed (.node (bump L) .null .null .null .null) (bump L).id) := by
    have hbl : db_chain_leaf (bump L) = true := by
      simp [db_chain_leaf, bump, hLleaf]
    have hcl : db_chain_leaf (⟨nid, L.arg, L.op, L.datum, action, b, 1⟩ : ChainData)
        = true := by simp [db_chain_leaf, hact]
    have hne : ((bump L).action_flag !=
        (⟨nid, L.arg, L.op, L.datum, action, b, 1⟩ : ChainData).action_flag) = true := by
      simp only [bump, bne_iff_ne]
      exact fun hh => hflag hh.symm
    simp only [ctSize, walkF]
    rw [if_pos heq]
    simp [hbl, hcl, hne]
  have hrem : chainTreeRemove
      (ctSize (.node (bump L) .null .null .null .null) + 1)
      (.node (bump L) .null .null .null .null) (bump L).id = some .null := by
    simp [ctSize, chainTreeRemove, remSpine]
  simp only [db_add_syscall, hbs, hsl, hco, hscan]
  norm_num [SCMP_ARG_MAX]
  simp only [hwalk, hrem]

/-- C4 witness: `add(ALLOW, 10, [(0, EQ, 3)])` followed by
`add(DENY, 10, [(0, NE, 3)])` — the normalised bits genuinely disagree and the
entry for syscall 10 is left with no tree root. -/
theorem add_conflicting_leaf_clears_single_node_witness :
    rewriteOp SCMP_CMP_NE = (SCMP_CMP_EQ, false) ∧
    (false ≠ true) ∧
    db_add_syscall ⟨SCMP_ACT_DENY,
        [⟨10, .node ⟨0, 0, SCMP_CMP_EQ, 3, SCMP_ACT_ALLOW, true, 1⟩
          .null .null .null .null⟩]⟩ SCMP_ACT_DENY 10 [(0, SCMP_CMP_NE, 3)] 1 =
      some (0, ⟨SCMP_ACT_DENY, [] ++ ⟨10, .null⟩ :: []⟩, 2) :=
  ⟨by decide, by decide,
    add_conflicting_leaf_clears_single_node _ SCMP_ACT_DENY 10 1 SCMP_CMP_NE false
      [] [] ⟨0, 0, SCMP_CMP_EQ, 3, SCMP_ACT_ALLOW, true, 1⟩ rfl (by simp)
      (by decide) (by decide) (by decide) (by decide) (by decide)⟩

/-! ## Claim C6: normalisation (sorted chain, rewritten operator basis) -/

/-- A chain built from at least one predicate is never NULL. -/
theorem chainOf_cons_ne_null (f : DbArgFilter) (rest : List DbArgFilter) (a n : Nat) :
    (chainOf (f :: rest) a n).1 ≠ .null := by
  match rest with
  | [] => simp [chainOf]
  | g :: gs =>
    simp only [chainOf]
    split <;> simp

/-- The chain-building loop stores, in order, exactly the filters it is given,
with the op and branch bit of the rewrite table. -/
theorem spineView_chainOf : ∀ (fl : List DbArgFilter) (a n : Nat),
    spineView (chainOf fl a n).1 =
      fl.map fun f => (f.arg, (rewriteOp f.op).1, f.datum, (rewriteOp f.op).2) := by
  intro fl
  induction fl with
  | nil => intro a n; rfl
  | cons f rest ih =>
    intro a n
    match rest with
    | [] => simp [chainOf, spineView]
    | g :: gs =>
      match hnode : (chainOf (g :: gs) a (n + 1)).1 with
      | .null => exact absurd hnode (chainOf_cons_ne_null g gs a (n + 1))
      | .node d p nn t ff =>
        by_cases hr : (rewriteOp f.op).2 = true
        · have hc : chainOf (f :: g :: gs) a n =
              (.node ⟨n, f.arg, (rewriteOp f.op).1, f.datum, 0, false, 1⟩
                .null .null (chainOf (g :: gs) a (n + 1)).1 .null,
                (chainOf (g :: gs) a (n + 1)).2) := by
            simp [chainOf, hr]
          rw [hc, hnode]
          simp only [spineView, hr, List.map_cons]
          rw [← hnode, ih]
          simp
        · have hc : chainOf (f :: g :: gs) a n =
              (.node ⟨n, f.arg, (rewriteOp f.op).1, f.datum, 0, false, 1⟩
                .null .null .null (chainOf (g :: gs) a (n + 1)).1,
                (chainOf (g :: gs) a (n + 1)).2) := by
            simp [chainOf, hr]
          rw [hc, hnode]
          simp only [spineView, List.map_cons]
          rw [← hnode, ih]
          simp [Bool.not_eq_true] at hr
          simp [hr]

/-- Every filled slot of the sorting array holds a filter whose arg equals its
index (db.c line 222). -/
theorem buildSlots_goodSlots :
    ∀ (l : List (Nat × Nat × Nat)) (s0 s : Slots),
      buildSlots l s0 = .ok s → (∀ j v, s0 j = some v → v.arg = j) →
      ∀ j v, s j = some v → v.arg = j := by
  intro l
  induction l with
  | nil => intro s0 s h hg; cases h; exact hg
  | cons x rest ih =>
    intro s0 s h hg
    obtain ⟨a, o, d⟩ := x
    simp only [buildSlots] at h
    split at h
    · split at h
      · cases h
      · refine ih _ _ h ?_
        intro j v hj
        by_cases hja : j = a
        · subst hja
          simp [slotPut] at hj
          rw [← hj]
        · simp [slotPut, hja] at hj
          exact hg j v hj
    · cases h

/-- Reading the slot array in index order yields a strictly arg-sorted list. -/
theorem filterMap_slots_sorted (s : Slots)
    (hgood : ∀ j v, s j = some v → v.arg = j) :
    ∀ is : List Nat, is.Pairwise (· < ·) →
      (is.filterMap s).Pairwise (fun x y => x.arg < y.arg) := by
  intro is
  induction is with
  | nil => intro _; simp
  | cons i tl ih =>
    intro hp
    rw [List.filterMap_cons]
    rcases hpc : s i with _ | v
    · exact ih (List.pairwise_cons.mp hp).2
    · apply List.Pairwise.cons
      · intro w hw
        obtain ⟨j, hj, hsj⟩ := List.mem_filterMap.mp hw
        have hw1 : w.arg = j := hgood j w hsj
        have hv1 : v.arg = i := hgood i v hpc
        have hij : i < j := (List.pairwise_cons.mp hp).1 j hj
        omega
      · exact ih (List.pairwise_cons.mp hp).2

/-- Filling one empty slot adds exactly that filter to the read-back. -/
theorem filterMap_slotPut_perm (s : Slots) (a : Nat) (v : DbArgFilter)
    (hsa : s a = none) :
    ∀ is : List Nat, is.Nodup → a ∈ is →
      List.Perm (is.filterMap (slotPut s a v)) (v :: is.filterMap s) := by
  intro is
  induction is with
  | nil => intro _ hmem; cases hmem
  | cons i tl ih =>
    intro hnd hmem
    rw [List.filterMap_cons, List.filterMap_cons]
    by_cases hia : i = a
    · subst hia
      have hnotin : i ∉ tl := (List.nodup_cons.mp hnd).1
      have hcong : tl.filterMap (slotPut s i v) = tl.filterMap s := by
        apply List.filterMap_congr
        intro b hb
        have : ¬ b = i := fun hbi => hnotin (hbi ▸ hb)
        simp [slotPut, this]
      simp only [slotPut, if_pos rfl, hsa, hcong]
      exact List.Perm.refl _
    · have hmem' : a ∈ tl := by
        rcases List.mem_cons.mp hmem with h1 | h1
        · exact absurd h1.symm hia
        · exact h1
      have hput : slotPut s a v i = s i := by simp [slotPut, hia]
      rw [hput]
      rcases hsi : s i with _ | w
      · exact ih (List.nodup_cons.mp hnd).2 hmem'
      · exact ((ih (List.nodup_cons.mp hnd).2 hmem').cons w).trans
          (List.Perm.swap v w _)

/-- The read-back of a successful sorting loop is a permutation of the raw
predicate list. -/
theorem buildSlots_perm :
    ∀ (l : List (Nat × Nat × Nat)) (s0 s : Slots),
      buildSlots l s0 = .ok s → (∀ x ∈ l, x.1 < SCMP_ARG_MAX) →
      List.Perm (slotsList s)
        ((l.map fun x => (⟨x.1, x.2.1, x.2.2⟩ : DbArgFilter)) ++ slotsList s0) := by
  intro l
  induction l with
  | nil => intro s0 s h _; cases h; simp
  | cons x rest ih =>
    intro s0 s h hin
    obtain ⟨a, o, d⟩ := x
    have ha : a < SCMP_ARG_MAX := hin (a, o, d) (by simp)
    simp only [buildSlots] at h
    rw [if_pos ha] at h
    split at h
    · cases h
    · have hsa : s0 a = none := by
        rename_i hns
        exact Option.not_isSome_iff_eq_none.mp hns
      have h1 := ih _ _ h (fun y hy => hin y (by simp [hy]))
      have h2 : List.Perm (slotsList (slotPut s0 a ⟨a, o, d⟩))
          ((⟨a, o, d⟩ : DbArgFilter) :: slotsList s0) :=
        filterMap_slotPut_perm s0 a _ hsa (List.range SCMP_ARG_MAX)
          (List.nodup_range _) (List.mem_range.mpr ha)
      simpa using h1.trans ((List.Perm.append_left _ h2).trans List.perm_middle)

/-- C6: the stored chain is sorted strictly ascending by arg-index and is, as
a multiset, the raw list with each operator and action-branch bit rewritten by
the table (NE to EQ with branch false, LT to GE with false, LE to GT with
false, EQ, GT, GE kept with branch true), so with raw operators drawn from
the six-operator set every stored operator lies in the EQ, GT, GE basis; and
concretely `add(ALLOW, 10, [(0, LT, 5)])` builds the single leaf `arg0 GE 5`
with action-branch false and action ALLOW. -/
theorem normalised_chain_sorted_basis :
    (∀ (l : List (Nat × Nat × Nat)) (action nid : Nat) (t : ChainTree),
      (∀ x ∈ l, x.1 < SCMP_ARG_MAX) →
      normChain l action nid = some t →
      (spineView t).Pairwise (fun x y => x.1 < y.1) ∧
      List.Perm (spineView t)
        (l.map fun x => (x.1, (rewriteOp x.2.1).1, x.2.2, (rewriteOp x.2.1).2)) ∧
      ((∀ x ∈ l, x.2.1 ∈ ([SCMP_CMP_EQ, SCMP_CMP_NE, SCMP_CMP_LT, SCMP_CMP_LE,
          SCMP_CMP_GT, SCMP_CMP_GE] : List Nat)) →
        ∀ y ∈ spineView t, y.2.1 = SCMP_CMP_EQ ∨ y.2.1 = SCMP_CMP_GT ∨
          y.2.1 = SCMP_CMP_GE)) ∧
    normChain [(0, SCMP_CMP_LT, 5)] SCMP_ACT_ALLOW 0 =
      some (.node ⟨0, 0, SCMP_CMP_GE, 5, SCMP_ACT_ALLOW, false, 1⟩
        .null .null .null .null) := by
  constructor
  · intro l action nid t hargs ht
    unfold normChain at ht
    rcases hbs : buildSlots l emptySlots with _ | _ | s <;> rw [hbs] at ht
    · cases ht
    · cases ht
    · have ht2 : t = (chainOf (slotsList s) action nid).1 := by
        injection ht with ht; exact ht.symm
      have hgood : ∀ j v, s j = some v → v.arg = j :=
        buildSlots_goodSlots l emptySlots s hbs (fun j v hj => by cases hj)
      have hview : spineView t = (slotsList s).map
          fun f => (f.arg, (rewriteOp f.op).1, f.datum, (rewriteOp f.op).2) := by
        rw [ht2, spineView_chainOf]
      have hperm0 : List.Perm (slotsList s)
          (l.map fun x => (⟨x.1, x.2.1, x.2.2⟩ : DbArgFilter)) := by
        have hsl : slotsList emptySlots = [] := rfl
        have := buildSlots_perm l emptySlots s hbs hargs
        rw [hsl, List.append_nil] at this
        exact this
      refine ⟨?_, ?_, ?_⟩
      · rw [hview]
        have hsorted := filterMap_slots_sorted s hgood (List.range SCMP_ARG_MAX)
          (List.pairwise_lt_range _)
        exact hsorted.map _ (fun x y hxy => hxy)
      · rw [hview]
        have := hperm0.map
          fun f => (f.arg, (rewriteOp f.op).1, f.datum, (rewriteOp f.op).2)
        simpa [Function.comp] using this
      · intro hops y hy
        rw [hview] at hy
        have hy2 : y ∈ l.map fun x =>
            (x.1, (rewriteOp x.2.1).1, x.2.2, (rewriteOp x.2.1).2) := by
          have hpm := hperm0.map
            fun f => (f.arg, (rewriteOp f.op).1, f.datum, (rewriteOp f.op).2)
          have hmem := (hpm.mem_iff (a := y)).mp hy
          simpa [List.map_map, Function.comp] using hmem
        obtain ⟨x, hxl, hxy⟩ := List.mem_map.mp hy2
        have hxop := hops x hxl
        simp only [List.mem_cons, List.not_mem_nil, or_false] at hxop
        rcases hxop with h | h | h | h | h | h <;>
          (rw [← hxy]; simp [rewriteOp, h, SCMP_CMP_NE, SCMP_CMP_LT, SCMP_CMP_LE,
            SCMP_CMP_EQ, SCMP_CMP_GE, SCMP_CMP_GT])
  · rfl

/-- C6 witness: the general statement applied to an unsorted two-predicate
list with a NE operator. -/
theorem normalised_chain_sorted_basis_witness :
    (∀ x ∈ [((1 : Nat), SCMP_CMP_NE, (7 : Nat)), (0, SCMP_CMP_EQ, 2)],
      x.1 < SCMP_ARG_MAX) ∧
    normChain [(1, SCMP_CMP_NE, 7), (0, SCMP_CMP_EQ, 2)] SCMP_ACT_ALLOW 0 =
      some (.node ⟨0, 0, SCMP_CMP_EQ, 2, 0, false, 1⟩ .null .null
        (.node ⟨1, 1, SCMP_CMP_EQ, 7, SCMP_ACT_ALLOW, false, 1⟩
          .null .null .null .null) .null) ∧
    ((spineView (.node ⟨0, 0, SCMP_CMP_EQ, 2, 0, false, 1⟩ .null .null
        (.node ⟨1, 1, SCMP_CMP_EQ, 7, SCMP_ACT_ALLOW, false, 1⟩
          .null .null .null .null) .null)).Pairwise (fun x y => x.1 < y.1) ∧
      List.Perm (spineView (.node ⟨0, 0, SCMP_CMP_EQ, 2, 0, false, 1⟩ .null .null
        (.node ⟨1, 1, SCMP_CMP_EQ, 7, SCMP_ACT_ALLOW, false, 1⟩
          .null .null .null .null) .null))
        ([(1, SCMP_CMP_NE, 7), (0, SCMP_CMP_EQ, 2)].map
          fun x => (x.1, (rewriteOp x.2.1).1, x.2.2, (rewriteOp x.2.1).2)) ∧
      ((∀ x ∈ [((1 : Nat), SCMP_CMP_NE, (7 : Nat)), (0, SCMP_CMP_EQ, 2)],
          x.2.1 ∈ ([SCMP_CMP_EQ, SCMP_CMP_NE, SCMP_CMP_LT, SCMP_CMP_LE,
            SCMP_CMP_GT, SCMP_CMP_GE] : List Nat)) →
        ∀ y ∈ spineView (.node ⟨0, 0, SCMP_CMP_EQ, 2, 0, false, 1⟩ .null .null
          (.node ⟨1, 1, SCMP_CMP_EQ, 7, SCMP_ACT_ALLOW, false, 1⟩
            .null .null .null .null) .null),
          y.2.1 = SCMP_CMP_EQ ∨ y.2.1 = SCMP_CMP_GT ∨ y.2.1 = SCMP_CMP_GE)) :=
  ⟨by decide, rfl,
    normalised_chain_sorted_basis.1 [(1, SCMP_CMP_NE, 7), (0, SCMP_CMP_EQ, 2)]
      SCMP_ACT_ALLOW 0 _ (by decide) rfl⟩

/-! ## Claim C3 (amended): re-adding the same rule -/

/-- A fresh chain has one node per predicate. -/
theorem ctSize_chainOf : ∀ (fl : List DbArgFilter) (a n : Nat),
    ctSize (chainOf fl a n).1 = fl.length := by
  intro fl
  induction fl with
  | nil => intro a n; rfl
  | cons f rest ih =>
    intro a n
    match rest with
    | [] => simp [chainOf, ctSize]
    | g :: gs =>
      by_cases hr : (rewriteOp f.op).2 = true
      · simp [chainOf, hr, ctSize, ih]; omega
      · simp [chainOf, hr, ctSize, ih]; omega

/-- Entries walked over by the syscall scan have numbers below the target. -/
theorem scanSyscalls_fst_lt : ∀ (L : List DbSysList) (sc : Nat) (x : DbSysList),
    x ∈ (scanSyscalls L sc).1 → x.num < sc := by
  intro L
  induction L with
  | nil => intro sc x hx; simp [scanSyscalls] at hx
  | cons e rest ih =>
    intro sc x hx
    simp only [scanSyscalls] at hx
    split at hx
    · simp at hx
      rcases hx with rfl | hx
      · assumption
      · exact ih sc x hx
    · simp at hx

/-- The entry the syscall scan stops on comes from the scanned list. -/
theorem scanSyscalls_snd_mem : ∀ (L : List DbSysList) (sc : Nat) (e : DbSysList)
    (tl : List DbSysList), (scanSyscalls L sc).2 = e :: tl → e ∈ L := by
  intro L
  induction L with
  | nil => intro sc e tl h; simp [scanSyscalls] at h
  | cons x rest ih =>
    intro sc e tl h
    simp only [scanSyscalls] at h
    split at h
    · simp at h
      exact List.mem_cons_of_mem _ (ih sc e tl h)
    · simp at h
      rw [h.1]
      exact List.mem_cons_self _ _

/-- Bumping refcounts along a spine is invisible after erasing refcounts. -/
theorem eraseRef_bumpSpine : ∀ t : ChainTree, eraseRef (bumpSpine t) = eraseRef t := by
  intro t
  induction t with
  | null => rfl
  | node d p n t f ihp ihn iht ihf =>
    cases t with
    | node td tp tn tt tf =>
      simp only [bumpSpine, eraseRef, iht]
      simp [bump]
    | null =>
      cases f with
      | node fd fp fn ft ff =>
        simp only [bumpSpine, eraseRef, ihf]
        simp [bump]
      | null =>
        simp [bumpSpine, eraseRef, bump]

/-- Walking a freshly built chain against an identically built chain (ids may
differ) matches all the way down and ends in the both-leaves, equal-bits case:
the stored chain is returned with exactly its spine refcounts incremented. -/
theorem walkF_self_chain :
    ∀ (fl : List DbArgFilter) (a n1 n2 fuel : Nat), fl ≠ [] → a ≠ 0 →
      fl.length < fuel →
      walkF a fuel (chainOf fl a n2).1 (chainOf fl a n1).1 =
        some (.matched (bumpSpine (chainOf fl a n1).1)) := by
  intro fl
  induction fl with
  | nil => intro a n1 n2 fuel h _ _; exact absurd rfl h
  | cons f rest ih =>
    intro a n1 n2 fuel _ hact hlen
    match fuel, hlen with
    | fuel + 1, hlen1 =>
      match rest with
      | [] =>
        have hbne : (a != 0) = true := bne_iff_ne.mpr hact
        simp [chainOf, walkF, db_chain_eq, db_chain_leaf, bump, bumpSpine, hbne]
      | g :: gs =>
        have hlen2 : (g :: gs).length < fuel := by
          simp at hlen1 ⊢; omega
        have hnn1 := chainOf_cons_ne_null g gs a (n1 + 1)
        have hnn2 := chainOf_cons_ne_null g gs a (n2 + 1)
        have hrec := ih a (n1 + 1) (n2 + 1) fuel (by simp) hact hlen2
        have heq : db_chain_eq
            ⟨n2, f.arg, (rewriteOp f.op).1, f.datum, 0, false, 1⟩
            ⟨n1, f.arg, (rewriteOp f.op).1, f.datum, 0, false, 1⟩ = true := by
          simp [db_chain_eq]
        by_cases hr : (rewriteOp f.op).2 = true
        · have hc1 : chainOf (f :: g :: gs) a n1 =
              (.node ⟨n1, f.arg, (rewriteOp f.op).1, f.datum, 0, false, 1⟩
                .null .null (chainOf (g :: gs) a (n1 + 1)).1 .null,
                (chainOf (g :: gs) a (n1 + 1)).2) := by
            simp [chainOf, hr]
          have hc2 : chainOf (f :: g :: gs) a n2 =
              (.node ⟨n2, f.arg, (rewriteOp f.op).1, f.datum, 0, false, 1⟩
                .null .null (chainOf (g :: gs) a (n2 + 1)).1 .null,
                (chainOf (g :: gs) a (n2 + 1)).2) := by
            simp [chainOf, hr]
          rw [hc1, hc2]
          match hnode1 : (chainOf (g :: gs) a (n1 + 1)).1,
              hnode2 : (chainOf (g :: gs) a (n2 + 1)).1 with
          | .null, _ => exact absurd hnode1 hnn1
          | .node d1 p1 nn1 t1 f1, .null => exact absurd hnode2 hnn2
          | .node d1 p1 nn1 t1 f1, .node d2 p2 nn2 t2 f2 =>
            simp only [walkF]
            rw [if_pos heq]
            rw [hnode1, hnode2] at hrec
            simp only [db_chain_leaf, bump, bumpSpine]
            simp [hrec, WalkRes.mapT]
        · have hc1 : chainOf (f :: g :: gs) a n1 =
              (.node ⟨n1, f.arg, (rewriteOp f.op).1, f.datum, 0, false, 1⟩
                .null .null .null (chainOf (g :: gs) a (n1 + 1)).1,
                (chainOf (g :: gs) a (n1 + 1)).2) := by
            simp [chainOf, hr]
          have hc2 : chainOf (f :: g :: gs) a n2 =
              (.node ⟨n2, f.arg, (rewriteOp f.op).1, f.datum, 0, false, 1⟩
                .null .null .null (chainOf (g :: gs) a (n2 + 1)).1,
                (chainOf (g :: gs) a (n2 + 1)).2) := by
            simp [chainOf, hr]
          rw [hc1, hc2]
          match hnode1 : (chainOf (g :: gs) a (n1 + 1)).1,
              hnode2 : (chainOf (g :: gs) a (n2 + 1)).1 with
          | .null, _ => exact absurd hnode1 hnn1
          | .node d1 p1 nn1 t1 f1, .null => exact absurd hnode2 hnn2
          | .node d1 p1 nn1 t1 f1, .node d2 p2 nn2 t2 f2 =>
            simp only [walkF]
            rw [if_pos heq]
            rw [hnode1, hnode2] at hrec
            simp only [db_chain_leaf, bump, bumpSpine]
            simp [hrec, WalkRes.mapT]

/-- When no entry for the syscall exists, `db_add_syscall` inserts a new entry
holding the fresh chain after the scanned-over entries (dropping the rest of
the list, per the missing `s_new->next` assignment). -/
theorem add_fresh_syscall (db : DbFilter) (action syscall nid : Nat)
    (l : List (Nat × Nat × Nat)) (s : Slots)
    (hlen : ¬ l.length > SCMP_ARG_MAX)
    (hbs : buildSlots l emptySlots = .ok s)
    (hfresh : ∀ e ∈ db.syscalls, e.num ≠ syscall) :
    db_add_syscall db action syscall l nid =
      some (0, { db with syscalls := (scanSyscalls db.syscalls syscall).1 ++
        [⟨syscall, (chainOf (slotsList s) action nid).1⟩] },
        (chainOf (slotsList s) action nid).2) := by
  simp only [db_add_syscall, if_neg hlen, hbs]
  rcases hpr : (scanSyscalls db.syscalls syscall).2 with _ | ⟨e, tail⟩
  · rfl
  · have hne : e.num ≠ syscall :=
      hfresh e (scanSyscalls_snd_mem db.syscalls syscall e tail hpr)
    simp [hne]

/-- C3 (amended): merging a valid rule for a syscall that has no entry yet and
then merging the identical rule again both succeed, and the second call leaves
the database identical to the first call's result except for the refcount
increments along the matched path (erasing refcounts, the two databases are
equal).  Bit-identity as claimed fails: the matched nodes' refcounts grow. -/
theorem add_same_rule_twice_fresh (db : DbFilter) (action syscall nid : Nat)
    (l : List (Nat × Nat × Nat))
    (hargs : ∀ x ∈ l, x.1 < SCMP_ARG_MAX)
    (hnd : (l.map fun x => x.1).Nodup)
    (hlen : ¬ l.length > SCMP_ARG_MAX)
    (hact : action ≠ 0)
    (hfresh : ∀ e ∈ db.syscalls, e.num ≠ syscall) :
    ∃ db1 n1 db2 n2,
      db_add_syscall db action syscall l nid = some (0, db1, n1) ∧
      db_add_syscall db1 action syscall l n1 = some (0, db2, n2) ∧
      eraseRefDb db2 = eraseRefDb db1 := by
  have hni : ¬ buildSlots l emptySlots = .inval := by
    rw [buildSlots_inval_iff l emptySlots hargs]
    intro hno; exact hno ⟨hnd, fun a _ => rfl⟩
  have hnu := buildSlots_ne_ub l hargs emptySlots
  rcases hbs : buildSlots l emptySlots with _ | _ | s
  · exact absurd hbs hnu
  · exact absurd hbs hni
  have hfirst := add_fresh_syscall db action syscall nid l s hlen hbs hfresh
  have hA1 : ∀ x ∈ (scanSyscalls db.syscalls syscall).1, x.num < syscall :=
    fun x hx => scanSyscalls_fst_lt db.syscalls syscall x hx
  have hscan2 : scanSyscalls ((scanSyscalls db.syscalls syscall).1 ++
      [(⟨syscall, (chainOf (slotsList s) action nid).1⟩ : DbSysList)]) syscall =
      ((scanSyscalls db.syscalls syscall).1,
        [(⟨syscall, (chainOf (slotsList s) action nid).1⟩ : DbSysList)]) :=
    scanSyscalls_split _ [] _ _ hA1 (by simp)
  rcases hfl : slotsList s with _ | ⟨f, rest⟩
  · rw [hfl] at hfirst hscan2
    simp only [chainOf] at hfirst hscan2
    refine ⟨_, _, _, nid, hfirst, ?_, rfl⟩
    simp only [db_add_syscall, if_neg hlen, hbs, hfl, chainOf]
    simp only [hscan2]
    simp
  · rw [hfl] at hfirst hscan2
    have hnn := chainOf_cons_ne_null f rest action nid
    rcases htn : (chainOf (f :: rest) action nid).1 with _ | ⟨d, p, n, tt, ff⟩
    · exact absurd htn hnn
    · have hnn2 := chainOf_cons_ne_null f rest action
        (chainOf (f :: rest) action nid).2
      rcases htn2 : (chainOf (f :: rest) action
          (chainOf (f :: rest) action nid).2).1 with _ | ⟨d2, p2, n2, tt2, ff2⟩
      · exact absurd htn2 hnn2
      · have hwalk := walkF_self_chain (f :: rest) action nid
          (chainOf (f :: rest) action nid).2
          (ctSize (chainOf (f :: rest) action nid).1 + 1) (by simp) hact
          (by rw [ctSize_chainOf]; omega)
        rw [htn, htn2] at hwalk
        rw [htn] at hfirst hscan2
        refine ⟨_, _, ⟨db.def_action, (scanSyscalls db.syscalls syscall).1 ++
            [⟨syscall, bumpSpine (.node d p n tt ff)⟩]⟩,
          (chainOf (f :: rest) action (chainOf (f :: rest) action nid).2).2,
          hfirst, ?_, ?_⟩
        · simp only [db_add_syscall, if_neg hlen, hbs, hfl, htn2]
          simp only [hscan2]
          simp only [hwalk]
          simp
        · simp [eraseRefDb, eraseRef_bumpSpine]

/-- C3 witness: the amended statement at the concrete rule of the
counterexample. -/
theorem add_same_rule_twice_fresh_witness :
    (∀ x ∈ [((0 : Nat), SCMP_CMP_EQ, (3 : Nat))], x.1 < SCMP_ARG_MAX) ∧
    (∃ db1 n1 db2 n2,
      db_add_syscall (db_new SCMP_ACT_DENY) SCMP_ACT_ALLOW 10
        [(0, SCMP_CMP_EQ, 3)] 0 = some (0, db1, n1) ∧
      db_add_syscall db1 SCMP_ACT_ALLOW 10 [(0, SCMP_CMP_EQ, 3)] n1 =
        some (0, db2, n2) ∧
      eraseRefDb db2 = eraseRefDb db1) :=
  ⟨by decide, add_same_rule_twice_fresh (db_new SCMP_ACT_DENY) SCMP_ACT_ALLOW 10 0
    [(0, SCMP_CMP_EQ, 3)] (by decide) (by decide) (by decide) (by decide)
    (by simp [db_new])⟩

/-! ## Claim C9: the action-branch child stays absent (P5 / I4) -/

/-- `mapT` rebuilds around the carried tree. -/
theorem tree_mapT (g : ChainTree → ChainTree) (w : WalkRes) :
    (WalkRes.mapT g w).tree = g w.tree := by
  cases w <;> rfl

/-- The normaliser builds chains satisfying P5: interior nodes carry no
action, and the leaf has both children NULL. -/
theorem p5_chainOf : ∀ (fl : List DbArgFilter) (a n : Nat),
    p5 (chainOf fl a n).1 = true := by
  intro fl
  induction fl with
  | nil => intro a n; rfl
  | cons f rest ih =>
    intro a n
    match rest with
    | [] => simp [chainOf, p5]
    | g :: gs =>
      by_cases hr : (rewriteOp f.op).2 = true
      · simp [chainOf, hr, p5, db_chain_leaf, ih]
      · simp [chainOf, hr, p5, db_chain_leaf, ih]

/-- Every outcome of the lockstep walk preserves P5: grafts attach subtrees of
the (P5) fresh chain on the non-action side, promotion clears exactly the
action-branch side, refcount bumps and level splices leave the action-branch
children untouched. -/
theorem p5_walkF : ∀ fuel a (c ec : ChainTree) r,
    walkF a fuel c ec = some r → p5 c = true → p5 ec = true →
    p5 r.tree = true := by
  intro fuel
  induction fuel with
  | zero => intro a c ec r h _ _; simp [walkF] at h
  | succ fuel ih =>
    intro a c ec r h hc hec
    match c, ec with
    | .null, _ => simp [walkF] at h
    | .node cd cp cn ct cf, .null => simp [walkF] at h
    | .node cd cp cn ct cf, .node ed0 ep en et ef =>
      simp only [p5, Bool.and_eq_true] at hc hec
      simp only [walkF] at h
      repeat' split at h
      all_goals try (cases h; simp_all [p5, WalkRes.tree, bump, db_chain_leaf])
      all_goals rw [Option.map_eq_some'] at h
      all_goals obtain ⟨r0, hr0, rfl⟩ := h
      all_goals rw [tree_mapT]
      · have hsub := ih _ _ _ _ hr0 hc.1.2 hec.1.2
        simp_all [p5, bump, db_chain_leaf]
      · have hsub := ih _ _ _ _ hr0 hc.2 hec.2
        simp_all [p5, bump, db_chain_leaf]
      · have hpc : p5 (ChainTree.node cd cp cn ct cf) = true := by
          simp only [p5, Bool.and_eq_true]; exact hc
        have hsub := ih _ _ _ _ hr0 hpc hec.1.1.1.2
        simp_all [p5, bump, db_chain_leaf]
      · have hpc : p5 (ChainTree.node cd cp cn ct cf) = true := by
          simp only [p5, Bool.and_eq_true]; exact hc
        have hsub := ih _ _ _ _ hr0 hpc hec.1.1.2
        simp_all [p5, bump, db_chain_leaf]

/-- Removing from an empty slot returns the empty slot. -/
theorem chainTreeRemove_null_out : ∀ (fuel nid : Nat) (t' : ChainTree),
    chainTreeRemove fuel .null nid = some t' → t' = .null := by
  intro fuel nid t' h
  match fuel with
  | 0 => simp [chainTreeRemove] at h
  | fuel + 1 =>
    simp only [chainTreeRemove] at h
    exact (Option.some.injEq _ _ ▸ h).symm

/-- `_db_arg_chain_tree_remove` preserves P5 in all three of its phases: it
only drops subtrees, clears children, or re-stitches level links, none of
which can put a child on a leaf's action-branch side. -/
theorem p5_remove_all : ∀ fuel : Nat,
    (∀ (t : ChainTree) (nid : Nat) (t' : ChainTree),
      chainTreeRemove fuel t nid = some t' → p5 t = true → p5 t' = true) ∧
    (∀ (t : ChainTree) (nid : Nat) (t' : ChainTree),
      remDescend fuel t nid = some t' → p5 t = true → p5 t' = true) ∧
    (∀ (t : ChainTree) (nid : Nat) (b : Bool) (t' : ChainTree),
      remSpine fuel t nid b = some t' → p5 t = true → p5 t' = true) := by
  intro fuel
  induction fuel with
  | zero =>
    refine ⟨?_, ?_, ?_⟩
    · intro t nid t' h; simp [chainTreeRemove] at h
    · intro t nid t' h; simp [remDescend] at h
    · intro t nid b t' h; simp [remSpine] at h
  | succ fuel ih =>
    obtain ⟨ihR, ihD, ihS⟩ := ih
    have hRD : ∀ (t : ChainTree) (nid : Nat) (t' : ChainTree),
        (chainTreeRemove (fuel + 1) t nid = some t' ∨
          remDescend (fuel + 1) t nid = some t') → p5 t = true → p5 t' = true := by
      intro t nid t' h hp
      match t with
      | .null =>
        rcases h with h | h <;>
          (simp only [chainTreeRemove, remDescend] at h; cases h; exact hp)
      | .node d p n tt ff =>
        simp only [p5, Bool.and_eq_true] at hp
        match p with
        | .null =>
          rcases h with h | h <;>
            simp only [chainTreeRemove, remDescend] at h <;>
            (apply ihS _ _ _ _ h; simp only [p5, Bool.and_eq_true]; tauto)
        | .node pd pp pn pt pf =>
          rcases h with h | h <;>
            simp only [chainTreeRemove, remDescend] at h <;>
            (rw [Option.map_eq_some'] at h; obtain ⟨p1, hp1, rfl⟩ := h;
             have hps := ihD _ _ _ hp1 hp.1.1.1.2;
             simp_all [p5])
    refine ⟨fun t nid t' h => hRD t nid t' (Or.inl h),
      fun t nid t' h => hRD t nid t' (Or.inr h), ?_⟩
    · intro t nid b t' h hp
      match t with
      | .null =>
        simp only [remSpine] at h; cases h; exact hp
      | .node d p n tt ff =>
        simp only [p5, Bool.and_eq_true] at hp
        simp only [remSpine] at h
        split at h
        · -- d.id = nid
          split at h
          · -- isHead
            match n, h with
            | .null, h => cases h; rfl
            | .node nd np nn nt nf, h =>
              cases h
              simp_all [p5]
          · cases h
        · -- not the node itself
          split at h
          · -- direct nxt_t hit
            cases h
            simp_all [p5]
            rcases hp.1.1.1.1 with hl | hcond
            · exact Or.inl hl
            · by_cases hfl : d.action_flag = true
              · exact Or.inr (Or.inl hfl)
              · rw [if_neg hfl] at hcond
                exact Or.inr (Or.inr hcond)
          · rcases hrem1 : chainTreeRemove fuel tt nid with _ | t1
            · rw [hrem1] at h; simp at h
            · rw [hrem1] at h
              simp only [] at h
              have hpt1 : p5 t1 = true := ihR _ _ _ hrem1 hp.1.2
              have ht1null : d.action_flag = true → db_chain_leaf d = true →
                  t1 = ChainTree.null := by
                intro hfl hleaf
                have hcond := hp.1.1.1.1
                rw [Bool.or_eq_true] at hcond
                rcases hcond with hl | hcond
                · rw [hleaf] at hl; cases hl
                · rw [if_pos hfl] at hcond
                  have htt : tt = ChainTree.null := by
                    exact beq_iff_eq.mp hcond
                  rw [htt] at hrem1
                  exact chainTreeRemove_null_out fuel nid t1 hrem1
              by_cases hff : chainId ff = some nid
              · rw [if_pos hff] at h
                cases h
                simp_all [p5]
                by_cases hl : db_chain_leaf d = false
                · exact Or.inl hl
                · by_cases hfl : d.action_flag = true
                  · have hleaf : db_chain_leaf d = true := by
                      cases hb : db_chain_leaf d
                      · exact absurd hb hl
                      · rfl
                    exact Or.inr (Or.inr (ht1null hfl hleaf))
                  · exact Or.inr (Or.inl (by simpa using hfl))
              · rw [if_neg hff] at h
                rcases hrem2 : chainTreeRemove fuel t1 nid with _ | t2
                · rw [hrem2] at h; simp at h
                · rw [hrem2] at h
                  simp only [] at h
                  have hpt2 : p5 t2 = true := ihR _ _ _ hrem2 hpt1
                  have ht2null : d.action_flag = true → db_chain_leaf d = true →
                      t2 = ChainTree.null := by
                    intro hfl hleaf
                    have ht1 := ht1null hfl hleaf
                    rw [ht1] at hrem2
                    exact chainTreeRemove_null_out fuel nid t2 hrem2
                  match n, hp, h with
                  | .null, hp, h =>
                    cases h
                    simp_all [p5]
                    by_cases hl : db_chain_leaf d = false
                    · exact Or.inl hl
                    · have hleaf : db_chain_leaf d = true := by
                        cases hb : db_chain_leaf d
                        · exact absurd hb hl
                        · rfl
                      right
                      by_cases hfl : d.action_flag = true
                      · rw [if_pos hfl]
                        exact ht2null hfl hleaf
                      · rw [if_neg hfl]
                        rcases hp.1.1.1 with hl2 | hcond2
                        · exact absurd hl2 hl
                        · rw [if_neg hfl] at hcond2
                          exact hcond2
                  | .node nd np nn nt nf, hp, h =>
                    rw [Option.map_eq_some'] at h
                    obtain ⟨n1, hn1, rfl⟩ := h
                    have hpn1 : p5 n1 = true := ihS _ _ _ _ hn1 hp.1.1.2
                    simp_all [p5]
                    by_cases hl : db_chain_leaf d = false
                    · exact Or.inl hl
                    · have hleaf : db_chain_leaf d = true := by
                        cases hb : db_chain_leaf d
                        · exact absurd hb hl
                        · rfl
                      right
                      by_cases hfl : d.action_flag = true
                      · rw [if_pos hfl]
                        exact ht2null hfl hleaf
                      · rw [if_neg hfl]
                        rcases hp.1.1.1.1 with hl2 | hcond2
                        · exact absurd hl2 hl
                        · rw [if_neg hfl] at hcond2
                          exact hcond2

/-- Both components of the syscall scan consist of entries of the input. -/
theorem scanSyscalls_mem : ∀ (L : List DbSysList) (sc : Nat) (x : DbSysList),
    (x ∈ (scanSyscalls L sc).1 → x ∈ L) ∧ (x ∈ (scanSyscalls L sc).2 → x ∈ L) := by
  intro L
  induction L with
  | nil => intro sc x; simp [scanSyscalls]
  | cons e rest ih =>
    intro sc x
    simp only [scanSyscalls]
    split
    · constructor
      · intro hx
        rcases List.mem_cons.mp hx with rfl | hx
        · exact List.mem_cons_self _ _
        · exact List.mem_cons_of_mem _ ((ih sc x).1 hx)
      · intro hx
        exact List.mem_cons_of_mem _ ((ih sc x).2 hx)
    · constructor
      · intro hx; simp at hx
      · intro hx; exact hx

/-- Rebuilding the syscall list from scanned entries plus one P5 tree keeps
the database P5. -/
theorem dbP5_build (db : DbFilter) (sc : Nat) (t : ChainTree)
    (P T : List DbSysList)
    (hP : ∀ e ∈ P, e ∈ db.syscalls) (hT : ∀ e ∈ T, e ∈ db.syscalls)
    (hdb : dbP5 db) (ht : p5 t = true) :
    dbP5 { db with syscalls := P ++ ⟨sc, t⟩ :: T } := by
  intro e he
  simp only at he
  rcases List.mem_append.mp he with h1 | h1
  · exact hdb e (hP e h1)
  · rcases List.mem_cons.mp h1 with rfl | h1
    · exact ht
    · exact hdb e (hT e h1)

/-- `db_add_syscall` preserves P5 across every successful execution. -/
theorem add_preserves_p5 (db : DbFilter) (action syscall nid : Nat)
    (l : List (Nat × Nat × Nat)) (db' : DbFilter) (nid' : Nat)
    (hdb : dbP5 db)
    (h : db_add_syscall db action syscall l nid = some (0, db', nid')) :
    dbP5 db' := by
  have hP : ∀ e ∈ (scanSyscalls db.syscalls syscall).1, e ∈ db.syscalls :=
    fun e he => (scanSyscalls_mem db.syscalls syscall e).1 he
  unfold db_add_syscall at h
  split at h
  · simp [EINVAL] at h
  · split at h
    · cases h
    · simp [EINVAL] at h
    · rename_i s hbs
      simp only [] at h
      rcases hscan : (scanSyscalls db.syscalls syscall).2 with _ | ⟨e, tail⟩
      all_goals rw [hscan] at h
      all_goals try simp only [] at h
      · simp only [Option.some.injEq, Prod.mk.injEq] at h
        obtain ⟨-, hdb', -⟩ := h
        rw [← hdb']
        exact dbP5_build db syscall _ _ [] hP (by simp) hdb (p5_chainOf _ _ _)
      · have hTm : ∀ x ∈ tail, x ∈ db.syscalls := by
          intro x hx
          have hx2 : x ∈ (scanSyscalls db.syscalls syscall).2 := by
            rw [hscan]; exact List.mem_cons_of_mem _ hx
          exact (scanSyscalls_mem db.syscalls syscall x).2 hx2
        have hem : e ∈ db.syscalls := by
          have he2 : e ∈ (scanSyscalls db.syscalls syscall).2 := by
            rw [hscan]; exact List.mem_cons_self _ _
          exact (scanSyscalls_mem db.syscalls syscall e).2 he2
        have hpe : p5 e.chains = true := hdb e hem
        by_cases hnum : e.num ≠ syscall
        · rw [if_pos hnum] at h
          simp only [Option.some.injEq, Prod.mk.injEq] at h
          obtain ⟨-, hdb', -⟩ := h
          rw [← hdb']
          exact dbP5_build db syscall _ _ [] hP (by simp) hdb (p5_chainOf _ _ _)
        · rw [if_neg hnum] at h
          rcases hch : e.chains with _ | ⟨ed, ep, en, et, ef⟩
          all_goals rw [hch] at h
          all_goals try simp only [] at h
          · simp only [Option.some.injEq, Prod.mk.injEq] at h
            obtain ⟨-, hdb', -⟩ := h
            rw [← hdb']
            exact hdb
          · rcases hsn : (chainOf (slotsList s) action nid).1
              with _ | ⟨cd, cp, cn, ct, cf⟩
            all_goals rw [hsn] at h
            all_goals try simp only [] at h
            · simp only [Option.some.injEq, Prod.mk.injEq] at h
              obtain ⟨-, hdb', -⟩ := h
              rw [← hdb']
              exact dbP5_build db syscall _ _ tail hP hTm hdb rfl
            · have hpc : p5 (ChainTree.node cd cp cn ct cf) = true := by
                rw [← hsn]; exact p5_chainOf _ _ _
              have hpec : p5 (ChainTree.node ed ep en et ef) = true := by
                rw [← hch]; exact hpe
              split at h
              · cases h
              · rename_i t hw
                have hpt : p5 t = true := by
                  have hh := p5_walkF _ _ _ _ _ hw hpc hpec
                  simpa [WalkRes.tree] using hh
                simp only [Option.some.injEq, Prod.mk.injEq] at h
                obtain ⟨-, hdb', -⟩ := h
                rw [← hdb']
                exact dbP5_build db syscall _ _ tail hP hTm hdb hpt
              · rename_i t i hw
                have hpt : p5 t = true := by
                  have hh := p5_walkF _ _ _ _ _ hw hpc hpec
                  simpa [WalkRes.tree] using hh
                split at h
                · cases h
                · rename_i t1 hrem
                  simp only [Option.some.injEq, Prod.mk.injEq] at h
                  obtain ⟨-, hdb', -⟩ := h
                  rw [← hdb']
                  have hpt1 : p5 t1 = true :=
                    (p5_remove_all (ctSize t + 1)).1 t i t1 hrem hpt
                  exact dbP5_build db syscall _ _ tail hP hTm hdb hpt1
              · rename_i t hw
                simp only [Option.some.injEq, Prod.mk.injEq] at h
                obtain ⟨h14, -, -⟩ := h
                simp [EFAULT] at h14

/-- C9: after every successful `db_add_syscall`, every node that carries an
action has its action-branch-side child absent — the normaliser builds rule
chains that way, and every merger case (graft onto a leaf's non-action side,
promotion of an internal node, level splice, refcount bump, node removal)
preserves it across the whole database. -/
theorem add_keeps_action_branch_child_absent :
    (∀ (fl : List DbArgFilter) (a n : Nat), p5 (chainOf fl a n).1 = true) ∧
    (∀ (db : DbFilter) (action syscall nid : Nat) (l : List (Nat × Nat × Nat))
      (db' : DbFilter) (nid' : Nat), dbP5 db →
      db_add_syscall db action syscall l nid = some (0, db', nid') →
      dbP5 db') :=
  ⟨p5_chainOf, add_preserves_p5⟩

/-- C9 witness: starting from the empty database (vacuously P5), the
scenario-4 add yields a database satisfying P5. -/
theorem add_keeps_action_branch_child_absent_witness :
    dbP5 (db_new SCMP_ACT_DENY) ∧
    db_add_syscall (db_new SCMP_ACT_DENY) SCMP_ACT_ALLOW 10
      [(0, SCMP_CMP_LT, 5)] 0 =
      some (0, ⟨SCMP_ACT_DENY,
        [⟨10, .node ⟨0, 0, SCMP_CMP_GE, 5, SCMP_ACT_ALLOW, false, 1⟩
          .null .null .null .null⟩]⟩, 1) ∧
    dbP5 ⟨SCMP_ACT_DENY,
      [⟨10, .node ⟨0, 0, SCMP_CMP_GE, 5, SCMP_ACT_ALLOW, false, 1⟩
        .null .null .null .null⟩]⟩ :=
  ⟨by intro e he; simp [db_new] at he, by decide,
    add_keeps_action_branch_child_absent.2 (db_new SCMP_ACT_DENY)
      SCMP_ACT_ALLOW 10 0 [(0, SCMP_CMP_LT, 5)] _ 1
      (by intro e he; simp [db_new] at he) (by decide)⟩
